import Mathlib

/-!
# Verification of the Octopus Agile tracker's data-acquisition layer

A shallow embedding, in Lean 4, of the repository's core modules:

* `src/lib/validation.ts` — input and API-response validation,
* `src/lib/price-utils.ts` — pure price analytics (stats, current/next
  lookup, grouping, sorting),
* the rate limiter (`RateLimiter` with retry/backoff) and
* the energy price service (`EnergyService` pagination and error envelope).

Modelling conventions:

* JavaScript numbers are modelled as `ℚ` (the code performs only exact
  arithmetic on the inputs the claims concern); timestamps (`Date.now()`,
  `Date#getTime()`) are `ℚ` milliseconds.
* The ambient clock (`new Date()` / `Date.now()`) is passed explicitly as a
  `now : ℚ` parameter, and the host primitive `Date.parse` is passed as an
  explicit `dateParse : String → Option ℚ` parameter (`none` models `NaN`).
* `throw`/`try`/`catch` is modelled with `Except`; asynchronous suspension
  (`await delay(...)`) advances the explicit model clock.
* TypeScript `x | null` becomes `Option x`; a JS in-place array mutation is
  modelled by a separate `..._post` definition giving the contents of the
  argument array after the call.
-/

/-! ## Generic JavaScript helpers -/

/-- The whitespace characters recognised by this model of JS `trim` and of
the whitespace skipping performed by `parseInt`. -/
def isJsWhitespace (c : Char) : Bool :=
  c = ' ' || c = '\t' || c = '\n' || c = '\r' || c = '\x0b' || c = '\x0c'

/-- Model of `String.prototype.trim`: strip leading and trailing whitespace. -/
def jsTrim (s : String) : String :=
  ⟨((s.toList.dropWhile isJsWhitespace).reverse.dropWhile isJsWhitespace).reverse⟩

/-- Numeric value of a nonempty list of decimal digit characters. -/
def digitsVal (cs : List Char) : ℕ :=
  cs.foldl (fun a c => 10 * a + (c.toNat - '0'.toNat)) 0

/-- Leading-digit parse used by `jsParseInt`: `none` when the list does not
start with a decimal digit, otherwise the value of the maximal digit run
(trailing garbage ignored, as in JS). -/
def parseLeadingDigits (cs : List Char) : Option ℕ :=
  let ds := cs.takeWhile Char.isDigit
  if ds.isEmpty then none else some (digitsVal ds)

/-- Model of `parseInt(s, 10)`: skip leading whitespace, accept an optional
sign, then read leading decimal digits; `none` models `NaN`. -/
def jsParseInt (s : String) : Option ℤ :=
  let t := s.toList.dropWhile isJsWhitespace
  match t with
  | '-' :: rest => (parseLeadingDigits rest).map (fun n => -(n : ℤ))
  | '+' :: rest => (parseLeadingDigits rest).map (fun n => (n : ℤ))
  | _ => (parseLeadingDigits t).map (fun n => (n : ℤ))

/-- JS truthiness of a nullable string: `null` and the empty string are
falsy, every other string is truthy. -/
def strTruthy : Option String → Bool
  | none => false
  | some s => s ≠ ""

/-! ## Data model (`src/lib/types.ts`) -/

/-- One half-hour pricing period, exactly the `EnergyRate` interface:
numeric prices, ISO-8601 timestamp *strings* for the validity interval. -/
structure EnergyRate where
  value_exc_vat : ℚ
  value_inc_vat : ℚ
  valid_from : String
  valid_to : String
deriving DecidableEq, Repr

/-- The `PriceStats` interface returned by `calculateStats`. -/
structure PriceStats where
  min : ℚ
  max : ℚ
  avg : ℚ
  trend : ℚ
  count : ℕ
deriving DecidableEq, Repr

/-- The `FetchResult<T>` envelope: `data`/`error` are nullable, plus the
`isLoading` flag. -/
structure FetchResult (α : Type) where
  data : Option α
  error : Option String
  isLoading : Bool
deriving DecidableEq, Repr

/-! ## Validation (`src/lib/validation.ts`) -/

/-- The `ValidationError` class: a message plus an optional offending field. -/
structure ValidationError where
  message : String
  field : Option String
deriving DecidableEq, Repr

/-- `ValidationRules.days` from the source. -/
structure DaysRule where
  min : ℤ
  max : ℤ
  default : ℤ
deriving Repr

/-- `ValidationRules.api` from the source. -/
structure ApiRule where
  maxRetries : ℕ
  timeoutMs : ℚ
  maxResults : ℕ
deriving Repr

/-- Shape of the `ValidationRules` constant. -/
structure ValidationRulesT where
  days : DaysRule
  api : ApiRule
deriving Repr

/-- The `ValidationRules` constant from `validation.ts`. -/
def ValidationRules : ValidationRulesT :=
  { days := { min := 1, max := 30, default := 3 }
    api := { maxRetries := 3, timeoutMs := 10000, maxResults := 1500 } }

/-- `validateDaysParameter(value: string | undefined): number`: default for
missing/empty/whitespace input, otherwise `parseInt` and a range check;
failures throw a `ValidationError` tagged with field `"days"`.  (The source's
interpolated message details are elided; the field tag is kept exactly.) -/
def validateDaysParameter : Option String → Except ValidationError ℤ
  | none => .ok ValidationRules.days.default
  | some value =>
    if value = "" ∨ jsTrim value = "" then .ok ValidationRules.days.default
    else
      match jsParseInt value with
      | none => .error { message := "Invalid days parameter", field := some "days" }
      | some parsed =>
        if parsed < ValidationRules.days.min ∨ ValidationRules.days.max < parsed then
          .error { message := "Days parameter out of range", field := some "days" }
        else .ok parsed

/-! ### URL validation

`validateUrl` constructs a `URL` and checks protocol and hostname.  The URL
constructor is modelled just far enough for scheme/host extraction: split at
the first `"://"`, take the authority up to the first `/`, `?` or `#`, drop
any userinfo (text up to the last `@`) and any port (text after a `:`), and
lowercase both parts. -/

/-- Split a character list at the first occurrence of `"://"`; returns the
scheme characters and the remainder. -/
def splitScheme : List Char → Option (List Char × List Char)
  | [] => none
  | ':' :: '/' :: '/' :: rest => some ([], rest)
  | c :: rest => (splitScheme rest).map (fun p => (c :: p.1, p.2))

/-- Extract `(protocol, hostname)` from a URL string, as the `URL`
constructor exposes them (`protocol` keeps its trailing colon). -/
def parseUrl (url : String) : Option (String × String) :=
  match splitScheme url.toList with
  | none => none
  | some (schemeChars, rest) =>
    if schemeChars.isEmpty then none
    else
      let authority := rest.takeWhile (fun c => c ≠ '/' && c ≠ '?' && c ≠ '#')
      let hostPort := ((authority.reverse.takeWhile (fun c => c ≠ '@')).reverse)
      let host := hostPort.takeWhile (fun c => c ≠ ':')
      some (⟨schemeChars.map Char.toLower⟩ ++ ":", ⟨host.map Char.toLower⟩)

/-- `validateUrl(url)`: true iff the URL parses with protocol `https:` and
hostname exactly `api.octopus.energy`. -/
def validateUrl (url : String) : Bool :=
  match parseUrl url with
  | some (protocol, hostname) => protocol == "https:" && hostname == "api.octopus.energy"
  | none => false

deriving instance DecidableEq for Except

/-! ## Price analytics (`src/lib/price-utils.ts`) -/

/-- `new Date(s).getTime()` under the injected `dateParse`.  The `getD 0`
default stands for `NaN`; every theorem that depends on the numeric value
either fixes a concrete parser or quantifies over `dateParse`, and the JS
`NaN` comparison semantics that matter (`now >= validFrom` is false on an
invalid date) are modelled separately in `containsNow`. -/
def jsTime (dateParse : String → Option ℚ) (s : String) : ℚ :=
  (dateParse s).getD 0

/-- The sort relation used by `prices.sort((a, b) => new Date(a.valid_from)
.getTime() - new Date(b.valid_from).getTime())`: ascending `valid_from`. -/
def leVF (dateParse : String → Option ℚ) (a b : EnergyRate) : Prop :=
  jsTime dateParse a.valid_from ≤ jsTime dateParse b.valid_from

instance (dateParse : String → Option ℚ) : DecidableRel (leVF dateParse) := fun a b =>
  (inferInstance : Decidable (jsTime dateParse a.valid_from ≤ jsTime dateParse b.valid_from))

instance (dateParse : String → Option ℚ) : IsTotal EnergyRate (leVF dateParse) :=
  ⟨fun a b => le_total (jsTime dateParse a.valid_from) (jsTime dateParse b.valid_from)⟩

instance (dateParse : String → Option ℚ) : IsTrans EnergyRate (leVF dateParse) :=
  ⟨fun _ _ _ hab hbc => le_trans hab hbc⟩

/-- Stable ascending sort by `valid_from`, the effect of the
`prices.sort(...)` calls in `filterPricesByDateRange` and
`getCurrentAndNextPrices` (JS `Array.prototype.sort` is stable). -/
def sortByValidFrom (dateParse : String → Option ℚ) (prices : List EnergyRate) : List EnergyRate :=
  List.insertionSort (leVF dateParse) prices

/-- `now >= validFrom && now < validTo` on a price point, with JS `Date`
semantics: a comparison against an invalid date (`dateParse` returns `none`,
i.e. `NaN`) is false. -/
def containsNow (dateParse : String → Option ℚ) (now : ℚ) (p : EnergyRate) : Bool :=
  match dateParse p.valid_from, dateParse p.valid_to with
  | some validFrom, some validTo => decide (validFrom ≤ now) && decide (now < validTo)
  | _, _ => false

/-- The indexed scan inside `getCurrentAndNextPrices`: on the first element
satisfying the predicate, return it together with the following element
(`sortedPrices[i + 1] || null`); otherwise both results stay `null`. -/
def currentNextLoop (pred : EnergyRate → Bool) :
    List EnergyRate → Option EnergyRate × Option EnergyRate
  | [] => (none, none)
  | p :: rest => if pred p then (some p, rest.head?) else currentNextLoop pred rest

/-- `getCurrentAndNextPrices(prices)`: sort ascending by `valid_from`, then
scan for the first point whose `[valid_from, valid_to)` interval contains
`now`; `next` is the element that follows it in the sorted order. -/
def getCurrentAndNextPrices (dateParse : String → Option ℚ) (now : ℚ)
    (prices : List EnergyRate) : Option EnergyRate × Option EnergyRate :=
  currentNextLoop (containsNow dateParse now) (sortByValidFrom dateParse prices)

/-- Contents of the caller's array after `getCurrentAndNextPrices` returns:
the in-place `prices.sort(...)` has reordered it ascending by `valid_from`. -/
def getCurrentAndNextPrices_post (dateParse : String → Option ℚ)
    (prices : List EnergyRate) : List EnergyRate :=
  sortByValidFrom dateParse prices

/-- `filterPricesByDateRange(prices)`: despite the name it only sorts the
array (in place) ascending by `valid_from` and returns it. -/
def filterPricesByDateRange (dateParse : String → Option ℚ)
    (prices : List EnergyRate) : List EnergyRate :=
  sortByValidFrom dateParse prices

/-- Contents of the caller's array after `filterPricesByDateRange` returns:
`Array.prototype.sort` mutated it in place. -/
def filterPricesByDateRange_post (dateParse : String → Option ℚ)
    (prices : List EnergyRate) : List EnergyRate :=
  sortByValidFrom dateParse prices

/-- `getCheapestPrice24h(prices)`: among points with `valid_from` in
`[now, now + 24h]`, the one with minimal `value_inc_vat` (first occurrence
wins ties, via `reduce`); `null` when there are none.  An invalid
`valid_from` fails both JS comparisons and is filtered out. -/
def getCheapestPrice24h (dateParse : String → Option ℚ) (now : ℚ)
    (prices : List EnergyRate) : Option EnergyRate :=
  let upcomingPrices := prices.filter (fun price =>
    match dateParse price.valid_from with
    | some validFrom => decide (now ≤ validFrom) && decide (validFrom ≤ now + 24 * 60 * 60 * 1000)
    | none => false)
  match upcomingPrices with
  | [] => none
  | first :: rest =>
    some (rest.foldl (fun cheapest current =>
      if current.value_inc_vat < cheapest.value_inc_vat then current else cheapest) first)

/-- Contents of the caller's array after `getCheapestPrice24h` returns:
`filter` and `reduce` allocate fresh values, the input is untouched. -/
def getCheapestPrice24h_post (prices : List EnergyRate) : List EnergyRate :=
  prices

/-- `groupPricesByDay(prices)`: partition into an insertion-ordered record
keyed by the date component of `valid_from`.  The key derivation
(`toISOString().split('T')[0]`, a host `Date` operation) is abstracted as the
`dateKey` parameter. -/
def groupPricesByDay (dateKey : String → String) (prices : List EnergyRate) :
    List (String × List EnergyRate) :=
  prices.foldl (fun acc price =>
    let k := dateKey price.valid_from
    if acc.any (fun kv => kv.1 == k) then
      acc.map (fun kv => if kv.1 == k then (kv.1, kv.2 ++ [price]) else kv)
    else acc ++ [(k, [price])]) []

/-- Contents of the caller's array after `groupPricesByDay` returns: the
`reduce` does not mutate its input. -/
def groupPricesByDay_post (prices : List EnergyRate) : List EnergyRate :=
  prices

/-! ### `calculateStats` -/

/-- The Gauss closed form `(n * (n - 1)) / 2` the source uses for `sumX`,
over `ℚ` as JS computes it. -/
def sumX (n : ℕ) : ℚ := ((n : ℚ) * ((n : ℚ) - 1)) / 2

/-- The closed form `(n * (n - 1) * (2 * n - 1)) / 6` the source uses for
`sumX2`. -/
def sumX2 (n : ℕ) : ℚ := ((n : ℚ) * ((n : ℚ) - 1) * (2 * (n : ℚ) - 1)) / 6

/-- The denominator `n * sumX2 - sumX * sumX` of the trend slope. -/
def trendDenom (n : ℕ) : ℚ := (n : ℚ) * sumX2 n - sumX n * sumX n

/-- The shape of `Array.prototype.reduce` with an index argument and
initial accumulator, used for `sumY` and `sumXY`. -/
def reduceIdxGo (f : ℚ → ℚ → ℕ → ℚ) : ℚ → List ℚ → ℕ → ℚ
  | acc, [], _ => acc
  | acc, v :: vs, i => reduceIdxGo f (f acc v i) vs (i + 1)

/-- `values.reduce((sum, val) => sum + val, 0)`. -/
def jsSum (values : List ℚ) : ℚ := reduceIdxGo (fun s v _ => s + v) 0 values 0

/-- `values.reduce((sum, val, index) => sum + val * index, 0)`. -/
def jsSumXY (values : List ℚ) : ℚ := reduceIdxGo (fun s v i => s + v * (i : ℚ)) 0 values 0

/-- `Math.min(...values)` on a nonempty list (the empty case is guarded in
the source; the `headD 0` seed is then the first element). -/
def mathMin (values : List ℚ) : ℚ := values.foldl min (values.headD 0)

/-- `Math.max(...values)` on a nonempty list. -/
def mathMax (values : List ℚ) : ℚ := values.foldl max (values.headD 0)

/-- `calculateStats(prices)`: all-zero stats on empty input; otherwise
min/max/mean of `value_inc_vat` plus the linear-regression slope `trend`
(computed only when at least two points exist, via the source's Gauss
closed forms). -/
def calculateStats (prices : List EnergyRate) : PriceStats :=
  if prices.isEmpty then { min := 0, max := 0, avg := 0, trend := 0, count := 0 }
  else
    let values := prices.map (fun p => p.value_inc_vat)
    let minV := mathMin values
    let maxV := mathMax values
    let avg := jsSum values / (values.length : ℚ)
    let n := prices.length
    let trend :=
      if 2 ≤ n then
        ((n : ℚ) * jsSumXY values - sumX n * jsSum values) / trendDenom n
      else 0
    { min := minV, max := maxV, avg := avg, trend := trend, count := prices.length }

/-! ## Rate limiter (`src/lib/rate-limiter.ts`)

`Date.now()` yields whole milliseconds, and every quantity the limiter
computes from it is an integer, so the limiter is modelled over `ℤ`.  The
only non-integer in the source is the backoff jitter
(`Math.random() * 0.1 * delay`), which is abstracted as an oracle
`jitter : ℕ → ℤ` of whole milliseconds per attempt (no settled claim
depends on its sub-millisecond fraction).  Asynchronous suspension
(`await this.delay(ms)`) advances the explicit model clock by `ms`. -/

/-- The `RateLimitOptions` configuration (all durations in ms). -/
structure RateLimitOptions where
  maxRequests : ℕ
  windowMs : ℤ
  minInterval : ℤ
  maxRetries : ℕ
  timeoutMs : ℤ
deriving DecidableEq, Repr

/-- The mutable fields of a `RateLimiter` instance, plus the model clock. -/
structure LimiterState where
  requests : List ℤ
  lastRequest : ℤ
  now : ℤ
deriving DecidableEq, Repr

/-- The error taxonomy observable from `execute`: the `RateLimitError` and
`TimeoutError` classes, a plain `Error` carrying a numeric `status` property
(as the 401/403/404 check looks for), and any other `Error`. -/
inductive JsError where
  | rateLimit (message : String) (retryAfter : Option ℤ)
  | timeout (message : String)
  | statusError (status : ℕ) (message : String)
  | generic (message : String)
deriving DecidableEq, Repr

/-- The non-retry classification in `execute`'s catch block: `TimeoutError`,
`RateLimitError`, or an error whose `status` is 401, 403 or 404. -/
def nonRetryable : JsError → Bool
  | .timeout _ => true
  | .rateLimit _ _ => true
  | .statusError s _ => s == 401 || s == 403 || s == 404
  | .generic _ => false

/-- `Math.ceil(x / d)` for an integer numerator and a natural denominator,
as integer arithmetic (see `jsCeilDiv_eq_ceil`). -/
def jsCeilDiv (x : ℤ) (d : ℕ) : ℤ := -((-x) / (d : ℤ))

/-- `jsCeilDiv` agrees with the real ceiling of the quotient. -/
theorem jsCeilDiv_eq_ceil (x : ℤ) (d : ℕ) : jsCeilDiv x d = ⌈(x : ℚ) / (d : ℚ)⌉ := by
  rw [jsCeilDiv, ← Rat.floor_intCast_div_natCast (-x) d]
  rw [show ((-x : ℤ) : ℚ) / (d : ℚ) = -((x : ℚ) / (d : ℚ)) by push_cast; ring]
  rw [Int.floor_neg, neg_neg]

/-- `cleanOldRequests()`: drop timestamps that have left the sliding window. -/
def cleanOldRequests (opts : RateLimitOptions) (s : LimiterState) : LimiterState :=
  { s with requests := s.requests.filter (fun timestamp => s.now - timestamp < opts.windowMs) }

/-- `Math.min(...this.requests)` on the (nonempty when used) pruned list. -/
def oldestRequest (requests : List ℤ) : ℤ := requests.foldl min (requests.headD 0)

/-- `canMakeRequest()`: prune, then check the window budget and the minimum
interval; returns the mutated state together with `allowed` and the computed
`retryAfter` (in whole seconds). -/
def canMakeRequest (opts : RateLimitOptions) (s : LimiterState) :
    LimiterState × Bool × Option ℤ :=
  let s1 := cleanOldRequests opts s
  if opts.maxRequests ≤ s1.requests.length then
    let oldest := oldestRequest s1.requests
    (s1, false, some (jsCeilDiv (oldest + opts.windowMs - s1.now) 1000))
  else
    let timeSinceLastRequest := s1.now - s1.lastRequest
    if timeSinceLastRequest < opts.minInterval then
      (s1, false, some (jsCeilDiv (opts.minInterval - timeSinceLastRequest) 1000))
    else (s1, true, none)

/-- `await this.delay(ms)`: the model clock advances by the wait. -/
def advanceClock (s : LimiterState) (ms : ℤ) : LimiterState :=
  { s with now := s.now + ms }

/-- The two lines that record a request before running the work unit:
`this.requests.push(now); this.lastRequest = now;`. -/
def recordRequest (s : LimiterState) : LimiterState :=
  { requests := s.requests ++ [s.now], lastRequest := s.now, now := s.now }

/-- The deterministic part of `exponentialBackoff`:
`Math.min(1000 * 2 ** attempt, 30000)` (the jitter is added by the caller). -/
def backoffDelay (attempt : ℕ) : ℤ := min (1000 * 2 ^ attempt) 30000

/-- Ghost observation of one `execute` run, for stating the claims: budget
waits, work-unit invocations (with the clock, the time since the last
recorded request and the in-window timestamp count at the moment the request
is recorded), and backoff waits. -/
inductive LimiterEvent where
  | budgetWait (ms : ℤ)
  | invoke (attempt : ℕ) (time : ℤ) (sinceLast : ℤ) (windowCount : ℕ)
  | backoff (ms : ℤ)
deriving DecidableEq, Repr

/-- `LimiterEvent.invoke`? -/
def isInvoke : LimiterEvent → Bool
  | .invoke _ _ _ _ => true
  | _ => false

/-- `LimiterEvent.backoff`? -/
def isBackoff : LimiterEvent → Bool
  | .backoff _ => true
  | _ => false

/-- `LimiterEvent.budgetWait`? -/
def isBudgetWait : LimiterEvent → Bool
  | .budgetWait _ => true
  | _ => false

/-- Everything one call to `execute` produces: its settled promise, the
limiter state it leaves behind, and the ghost event trace. -/
structure ExecOut (α : Type) where
  result : Except JsError α
  state : LimiterState
  trace : List LimiterEvent
deriving Repr

/-- The body of `execute`'s for-loop, one iteration per `attempt`.  `fuel`
is a structural bound on the remaining iterations; `execute` supplies
`maxRetries + 1`, which `executeGo_...` lemmas show is never exhausted
(the loop breaks at `attempt === maxRetries` first).

Per iteration, mirroring the source: run `canMakeRequest`; when not allowed
either suspend `retryAfter` seconds (if `retryAfter` is truthy and ≤ 60) and
fall through — the source does *not* re-check the budget after the wait — or
throw a `RateLimitError`, which the catch block classifies as non-retryable
and rethrows.  Then record the request, run the work unit (its settled
outcome for this attempt is the oracle `work attempt`), and on a retryable
failure back off and iterate, surfacing the last error when
`attempt === maxRetries`. -/
def executeGo (opts : RateLimitOptions) (work : ℕ → Except JsError α) (jitter : ℕ → ℤ) :
    (fuel : ℕ) → (attempt : ℕ) → LimiterState → ExecOut α
  | 0, _, s => ⟨.error (.generic "All retry attempts failed"), s, []⟩
  | fuel + 1, attempt, s =>
    let checked := canMakeRequest opts s
    let s1 := checked.1
    let budget : Except JsError (LimiterState × List LimiterEvent) :=
      if checked.2.1 then .ok (s1, [])
      else
        match checked.2.2 with
        | some retryAfter =>
          if retryAfter ≠ 0 ∧ retryAfter ≤ 60 then
            .ok (advanceClock s1 (retryAfter * 1000), [.budgetWait (retryAfter * 1000)])
          else .error (.rateLimit "Rate limit exceeded" (some retryAfter))
        | none => .error (.rateLimit "Rate limit exceeded" none)
    match budget with
    | .error e => ⟨.error e, s1, []⟩
    | .ok (s2, waits) =>
      let s3 := recordRequest s2
      let ev := LimiterEvent.invoke attempt s2.now (s2.now - s2.lastRequest)
        ((s2.requests.filter (fun t => s2.now - t < opts.windowMs)).length)
      match work attempt with
      | .ok v => ⟨.ok v, s3, waits ++ [ev]⟩
      | .error e =>
        if nonRetryable e then ⟨.error e, s3, waits ++ [ev]⟩
        else if attempt = opts.maxRetries then ⟨.error e, s3, waits ++ [ev]⟩
        else
          let d := backoffDelay attempt + jitter attempt
          let rec_ := executeGo opts work jitter fuel (attempt + 1) (advanceClock s3 d)
          ⟨rec_.result, rec_.state, waits ++ [ev, .backoff d] ++ rec_.trace⟩

/-- `execute(fn)`: run the retry loop from attempt 0. -/
def execute (opts : RateLimitOptions) (work : ℕ → Except JsError α) (jitter : ℕ → ℤ)
    (s : LimiterState) : ExecOut α :=
  executeGo opts work jitter (opts.maxRetries + 1) 0 s

/-- The `octopusApiRateLimiter` configuration from the source. -/
def octopusApiRateLimiter : RateLimitOptions :=
  { maxRequests := 30, windowMs := 60 * 1000, minInterval := 2000
    maxRetries := 3, timeoutMs := 15000 }

/-- A scratch configuration for the inline sanity checks below. -/
def scratchOpts : RateLimitOptions :=
  { maxRequests := 60, windowMs := 60000, minInterval := 1000
    maxRetries := 3, timeoutMs := 10000 }

/-- A scratch initial state for the inline sanity checks below. -/
def scratchState : LimiterState :=
  { requests := [], lastRequest := 0, now := 1000 }

/-- A scratch always-failing work unit for the inline sanity checks below. -/
def scratchWork : ℕ → Except JsError ℕ := fun _ => Except.error (JsError.generic "boom")

/-! ## API response validation and the energy service

(`validateEnergyRate` / `validateApiResponse` from `src/lib/validation.ts`,
`EnergyService` from `src/lib/energy-service.ts`.)

A parsed JSON body is modelled by the `Json` type below; property access on
a non-object or a missing key yields `undefined`, i.e. `none`.  The host's
`Date.parse` stays the explicit `dateParse` parameter (`none` = `NaN`). -/

/-- A parsed JSON value (what `await response.json()` resolves to). -/
inductive Json where
  | null
  | bool (b : Bool)
  | num (q : ℚ)
  | str (s : String)
  | arr (elems : List Json)
  | obj (fields : List (String × Json))

/-- JS property access `value[key]`: `none` models `undefined`. -/
def getField (j : Json) (key : String) : Option Json :=
  match j with
  | .obj fields => (fields.find? (fun kv => kv.1 == key)).map (fun kv => kv.2)
  | _ => none

/-- `typeof x === 'number'` after a possibly-undefined access. -/
def isNumField (j : Json) (key : String) : Bool :=
  match getField j key with
  | some (.num _) => true
  | _ => false

/-- `typeof x === 'string'` after a possibly-undefined access. -/
def isStrField (j : Json) (key : String) : Bool :=
  match getField j key with
  | some (.str _) => true
  | _ => false

/-- The string content of a field, when it is a string. -/
def strField (j : Json) (key : String) : Option String :=
  match getField j key with
  | some (.str s) => some s
  | _ => none

/-- The numeric content of a field, when it is a number. -/
def numField (j : Json) (key : String) : Option ℚ :=
  match getField j key with
  | some (.num q) => some q
  | _ => none

/-- `validateEnergyRate(data)`: an object with numeric `value_exc_vat` and
`value_inc_vat`, string `valid_from`/`valid_to` that `Date.parse` accepts,
and `value_inc_vat` within the sanity bounds `[-100, 1000]`. -/
def validateEnergyRate (dateParse : String → Option ℚ) (data : Json) : Bool :=
  match data with
  | .obj _ =>
    isNumField data "value_exc_vat" && isNumField data "value_inc_vat" &&
    isStrField data "valid_from" && isStrField data "valid_to" &&
    ((strField data "valid_from").bind dateParse).isSome &&
    ((strField data "valid_to").bind dateParse).isSome &&
    ((numField data "value_inc_vat").getD 0 ≥ -100) &&
    ((numField data "value_inc_vat").getD 0 ≤ 1000)
  | _ => false

/-- `next`/`previous` must each be `null` or a string. -/
def isNullOrStrField (j : Json) (key : String) : Bool :=
  match getField j key with
  | some .null => true
  | some (.str _) => true
  | _ => false

/-- `validateApiResponse(data)`: numeric `count`, null-or-string
`next`/`previous`, and a `results` array whose every element passes
`validateEnergyRate`. -/
def validateApiResponse (dateParse : String → Option ℚ) (data : Json) : Bool :=
  match data with
  | .obj _ =>
    isNumField data "count" &&
    isNullOrStrField data "next" && isNullOrStrField data "previous" &&
    (match getField data "results" with
     | some (.arr results) => results.all (validateEnergyRate dateParse)
     | _ => false)
  | _ => false

/-- The `APP_CONFIG.api` constants from `src/lib/config.ts`. -/
structure ApiConfig where
  baseUrl : String
  productCode : String
  tariffCode : String
  revalidateSeconds : ℕ
  maxResults : ℕ
deriving Repr

/-- `APP_CONFIG.api` from the source. -/
def APP_CONFIG_api : ApiConfig :=
  { baseUrl := "https://api.octopus.energy/v1"
    productCode := "AGILE-24-10-01"
    tariffCode := "E-1R-AGILE-24-10-01-G"
    revalidateSeconds := 1800
    maxResults := 1500 }

/-- `buildApiUrl(periodFrom, periodTo)`: assemble the first-page URL from
the configured identifiers; throws when it fails `validateUrl`. -/
def buildApiUrl (periodFrom periodTo : String) : Except JsError String :=
  let url := APP_CONFIG_api.baseUrl ++ "/products/" ++ APP_CONFIG_api.productCode ++
    "/electricity-tariffs/" ++ APP_CONFIG_api.tariffCode ++
    "/standard-unit-rates/?period_from=" ++ periodFrom ++ "&period_to=" ++ periodTo
  if validateUrl url then .ok url else .error (.generic "Invalid API URL detected")

/-- Deserialize one validated result object into an `EnergyRate` (the
defaults are unreachable once `validateEnergyRate` has accepted it). -/
def jsonToRate (j : Json) : EnergyRate :=
  { value_exc_vat := (numField j "value_exc_vat").getD 0
    value_inc_vat := (numField j "value_inc_vat").getD 0
    valid_from := (strField j "valid_from").getD ""
    valid_to := (strField j "valid_to").getD "" }

/-- `data.results` of a validated page, as `EnergyRate` values. -/
def extractResults (j : Json) : List EnergyRate :=
  match getField j "results" with
  | some (.arr results) => results.map jsonToRate
  | _ => []

/-- `data.next` of a validated page (`null` or a string). -/
def extractNext (j : Json) : Option String :=
  match getField j "next" with
  | some (.str u) => some u
  | _ => none

/-- One settled fetch of a page through `fetchWithSecurity` plus
`response.json()`: either a parsed body, or whatever error that pipeline
rejected with (HTTP-status errors, `RateLimitError` from the limiter or a
429, `TimeoutError`, JSON parse failures, network failures).  The claims
quantify over this oracle, indexed by the page-request counter. -/
def PageOracle : Type := ℕ → Except JsError Json

/-- The pagination `while` loop of `getEnergyPricesImpl`.  `fuel` counts the
remaining page requests out of `maxRequests = 10`; the loop runs while a
next URL exists, fewer than `ValidationRules.api.maxResults` results are
accumulated and the request counter is below 10.  Each iteration: fetch
(revalidating the URL first, as `fetchWithSecurity` does), validate the
body's shape (throwing on failure), append the results, advance to `next` —
except that a non-null `next` failing `validateUrl` breaks out silently, as
does exceeding the result cap. -/
def pagLoop (dateParse : String → Option ℚ) (oracle : PageOracle) :
    (fuel : ℕ) → Option String → List EnergyRate → (requestCount : ℕ) →
    Except JsError (List EnergyRate)
  | 0, _, allResults, _ => .ok allResults
  | _ + 1, none, allResults, _ => .ok allResults
  | fuel + 1, some url, allResults, requestCount =>
    if ValidationRules.api.maxResults ≤ allResults.length then .ok allResults
    else if ¬ validateUrl url then .error (.generic "Invalid URL for security policy")
    else
      match oracle requestCount with
      | .error e => .error e
      | .ok data =>
        if validateApiResponse dateParse data then
          let acc := allResults ++ extractResults data
          match extractNext data with
          | some nextUrl =>
            if ¬ validateUrl nextUrl then .ok acc
            else if ValidationRules.api.maxResults < acc.length then .ok acc
            else pagLoop dateParse oracle fuel (some nextUrl) acc (requestCount + 1)
          | none =>
            if ValidationRules.api.maxResults < acc.length then .ok acc
            else pagLoop dateParse oracle fuel none acc (requestCount + 1)
        else .error (.generic "Invalid API response format received")

/-- The error-message normalisation in `getEnergyPricesImpl`'s catch block. -/
def errorMessageOf : JsError → String
  | .rateLimit m _ => "Rate limit exceeded: " ++ m
  | .timeout m => "Request timeout: " ++ m
  | .statusError _ m => m
  | .generic m => m

/-- `EnergyService.getEnergyPricesImpl(days)`.  The day-window computation
(`daysAgo` / `tomorrow`, host-`Date` calendar arithmetic) only feeds the two
ISO strings interpolated into the first-page URL, so those strings are taken
as the parameters `periodFrom`/`periodTo`; the `days` clamp from the source
is kept.  Everything thrown inside the `try` is mapped to the error
envelope; a successful loop yields the data envelope. -/
def getEnergyPricesImpl (days : ℤ) (periodFrom periodTo : String)
    (dateParse : String → Option ℚ) (oracle : PageOracle) :
    FetchResult (List EnergyRate) :=
  let validatedDays := max 1 (min (ValidationRules.days.max) days)
  let run : Except JsError (List EnergyRate) :=
    match buildApiUrl periodFrom periodTo with
    | .error e => .error e
    | .ok url => pagLoop dateParse oracle 10 (some url) [] 0
  let _ := validatedDays
  match run with
  | .ok allResults => { data := some allResults, error := none, isLoading := false }
  | .error e => { data := none, error := some (errorMessageOf e), isLoading := false }

/-- `EnergyService.getCurrentPrice()`: fetch one day of prices (through the
memoising wrapper, which returns the same envelope), bail out with the
fetched error when the envelope is errored or empty, otherwise scan for the
point whose interval contains `now`. -/
def getCurrentPrice (dateParse : String → Option ℚ) (now : ℚ)
    (periodFrom periodTo : String) (oracle : PageOracle) : FetchResult EnergyRate :=
  let result := getEnergyPricesImpl 1 periodFrom periodTo dateParse oracle
  match result.data with
  | none => { data := none, error := result.error, isLoading := false }
  | some data =>
    if strTruthy result.error then { data := none, error := result.error, isLoading := false }
    else
      let currentPrice := data.find? (containsNow dateParse now)
      { data := currentPrice
        error := if currentPrice.isSome then none else some "No current price found"
        isLoading := false }

/-- The ordinary-least-squares slope of `values` regressed against the
position index `0 .. n-1`, in its standard closed form with genuine sums
over the indices (the reference formulation the claim compares against). -/
def olsSlope (values : List ℚ) : ℚ :=
  let n : ℚ := (values.length : ℚ)
  let sx : ℚ := ∑ i ∈ Finset.range values.length, (i : ℚ)
  let sy : ℚ := ∑ i ∈ Finset.range values.length, values.getD i 0
  let sxy : ℚ := ∑ i ∈ Finset.range values.length, (i : ℚ) * values.getD i 0
  let sx2 : ℚ := ∑ i ∈ Finset.range values.length, (i : ℚ) * (i : ℚ)
  (n * sxy - sx * sy) / (n * sx2 - sx * sx)

/-- Contents of the caller's array after `calculateStats` returns: the maps
and reductions allocate fresh values, the input is untouched. -/
def calculateStats_post (prices : List EnergyRate) : List EnergyRate :=
  prices

/-- A concrete date parser for concrete evaluations: `"100"` and `"200"`
denote the instants 100 and 200 (ms); everything else is unparseable. -/
def probeParse : String → Option ℚ :=
  fun s => if s = "100" then some 100 else if s = "200" then some 200 else none

/-- A configuration under which a single budget wait cannot restore the
minimum-interval limit: a 10 s window holding up to 2 requests, with a 5 s
minimum spacing. -/
def waitOverrunOpts : RateLimitOptions :=
  { maxRequests := 2, windowMs := 10000, minInterval := 5000
    maxRetries := 3, timeoutMs := 10000 }

/-- A limiter state whose window is full (requests at 0 and 9000 ms) with
the clock at 9500 ms: the budget check fails on the request count with
`retryAfter = 1` s, yet only 1.5 s will have passed since the last request
once that second has been waited out. -/
def waitOverrunState : LimiterState :=
  { requests := [0, 9000], lastRequest := 9000, now := 9500 }

/-- A fixed first-page window start for concrete service evaluations. -/
def probePeriodFrom : String := "2025-01-01T00:00:00Z"

/-- A fixed first-page window end for concrete service evaluations. -/
def probePeriodTo : String := "2025-01-02T23:59:59Z"

/-- A date parser that accepts every string (shape checks only care that
`Date.parse` succeeds). -/
def probeParseAll : String → Option ℚ := fun _ => some 0

/-- One well-formed result object. -/
def probeRateJson : Json :=
  Json.obj [("value_exc_vat", Json.num 1), ("value_inc_vat", Json.num 2),
    ("valid_from", Json.str "a"), ("valid_to", Json.str "b")]

/-- A well-formed page whose `next` link points at a foreign host. -/
def probePage : Json :=
  Json.obj [("count", Json.num 1),
    ("next", Json.str "https://evil.example.com/x"), ("previous", Json.null),
    ("results", Json.arr [probeRateJson])]

/-- An upstream that serves `probePage` for every request. -/
def probeOracle : PageOracle := fun _ => Except.ok probePage

/-! # Claims -/

/-! ## C6: `validateDaysParameter` -/

/-- C6: `validateDaysParameter` returns the configured default 3 for
undefined or empty/whitespace input; for every integer `days` in `[1, 30]`,
`validateDaysParameter(String(days))` returns `days` unchanged; for every
non-numeric string (one `parseInt` cannot read a number from, the
whitespace-only case being covered by the default clause) it throws a
`ValidationError` with field `"days"`; and for every parsed value outside
`[1, 30]` it throws a `ValidationError` with field `"days"`. -/
theorem validateDaysParameter_spec :
    (validateDaysParameter none = .ok 3
      ∧ ∀ s : String, jsTrim s = "" → validateDaysParameter (some s) = .ok 3)
    ∧ (∀ d : ℕ, 1 ≤ d → d ≤ 30 →
        validateDaysParameter (some (Nat.repr d)) = .ok (d : ℤ))
    ∧ (∀ s : String, jsTrim s ≠ "" → jsParseInt s = none →
        validateDaysParameter (some s) =
          .error { message := "Invalid days parameter", field := some "days" })
    ∧ (∀ (s : String) (p : ℤ), jsTrim s ≠ "" → jsParseInt s = some p →
        (p < 1 ∨ 30 < p) →
        validateDaysParameter (some s) =
          .error { message := "Days parameter out of range", field := some "days" }) := by
  refine ⟨⟨rfl, fun s h => ?_⟩, fun d h1 h2 => ?_, fun s h1 h2 => ?_, fun s p h1 h2 h3 => ?_⟩
  · rw [validateDaysParameter, if_pos (Or.inr h)]
    rfl
  · interval_cases d <;> decide
  · have hcond : ¬(s = "" ∨ jsTrim s = "") := by
      rintro (rfl | h)
      · exact h1 rfl
      · exact h1 h
    rw [validateDaysParameter, if_neg hcond, h2]
  · have hcond : ¬(s = "" ∨ jsTrim s = "") := by
      rintro (rfl | h)
      · exact h1 rfl
      · exact h1 h
    rw [validateDaysParameter, if_neg hcond, h2]
    have : p < ValidationRules.days.min ∨ ValidationRules.days.max < p := h3
    simp only [if_pos this]

/-- C6 witness: the theorem evaluated at concrete inputs. -/
theorem validateDaysParameter_spec_witness :
    validateDaysParameter (some (Nat.repr 17)) = .ok ((17 : ℕ) : ℤ)
    ∧ validateDaysParameter (some " ") = .ok 3
    ∧ validateDaysParameter (some "abc") =
        .error { message := "Invalid days parameter", field := some "days" }
    ∧ validateDaysParameter (some "45") =
        .error { message := "Days parameter out of range", field := some "days" } :=
  ⟨validateDaysParameter_spec.2.1 17 (by decide) (by decide),
   validateDaysParameter_spec.1.2 " " (by decide),
   validateDaysParameter_spec.2.2.1 "abc" (by decide) (by decide),
   validateDaysParameter_spec.2.2.2 "45" 45 (by decide) (by decide) (by decide)⟩

/-! ## C8 and C10: `calculateStats` -/

/-- A `foldl min` never exceeds its seed. -/
theorem foldl_min_le_init : ∀ (l : List ℚ) (a : ℚ), l.foldl min a ≤ a := by
  intro l
  induction l with
  | nil => intro a; exact le_refl a
  | cons v vs ih => intro a; exact le_trans (ih (min a v)) (min_le_left a v)

/-- A `foldl min` is a lower bound of the list. -/
theorem foldl_min_le_mem : ∀ (l : List ℚ) (a v : ℚ), v ∈ l → l.foldl min a ≤ v := by
  intro l
  induction l with
  | nil => intro a v hv; cases hv
  | cons w ws ih =>
    intro a v hv
    rcases List.mem_cons.mp hv with rfl | hv
    · exact le_trans (foldl_min_le_init ws (min a v)) (min_le_right a v)
    · exact ih (min a w) v hv

/-- A `foldl min` is its seed or one of the list's elements. -/
theorem foldl_min_mem : ∀ (l : List ℚ) (a : ℚ), l.foldl min a = a ∨ l.foldl min a ∈ l := by
  intro l
  induction l with
  | nil => intro a; exact Or.inl rfl
  | cons v vs ih =>
    intro a
    rcases ih (min a v) with h | h
    · rcases min_choice a v with hm | hm
      · exact Or.inl (h.trans hm)
      · exact Or.inr (List.mem_cons.mpr (Or.inl (h.trans hm)))
    · exact Or.inr (List.mem_cons.mpr (Or.inr h))

/-- A `foldl max` is at least its seed. -/
theorem foldl_max_ge_init : ∀ (l : List ℚ) (a : ℚ), a ≤ l.foldl max a := by
  intro l
  induction l with
  | nil => intro a; exact le_refl a
  | cons v vs ih => intro a; exact le_trans (le_max_left a v) (ih (max a v))

/-- A `foldl max` is an upper bound of the list. -/
theorem foldl_max_ge_mem : ∀ (l : List ℚ) (a v : ℚ), v ∈ l → v ≤ l.foldl max a := by
  intro l
  induction l with
  | nil => intro a v hv; cases hv
  | cons w ws ih =>
    intro a v hv
    rcases List.mem_cons.mp hv with rfl | hv
    · exact le_trans (le_max_right a v) (foldl_max_ge_init ws (max a v))
    · exact ih (max a w) v hv

/-- A `foldl max` is its seed or one of the list's elements. -/
theorem foldl_max_mem : ∀ (l : List ℚ) (a : ℚ), l.foldl max a = a ∨ l.foldl max a ∈ l := by
  intro l
  induction l with
  | nil => intro a; exact Or.inl rfl
  | cons v vs ih =>
    intro a
    rcases ih (max a v) with h | h
    · rcases max_choice a v with hm | hm
      · exact Or.inl (h.trans hm)
      · exact Or.inr (List.mem_cons.mpr (Or.inl (h.trans hm)))
    · exact Or.inr (List.mem_cons.mpr (Or.inr h))

/-- The plain-sum `reduce` equals the list sum, from any accumulator. -/
theorem reduceIdxGo_sum (l : List ℚ) : ∀ (acc : ℚ) (i : ℕ),
    reduceIdxGo (fun s v _ => s + v) acc l i = acc + l.sum := by
  induction l with
  | nil => intro acc i; simp [reduceIdxGo]
  | cons v vs ih =>
    intro acc i
    simp only [reduceIdxGo, ih, List.sum_cons]
    ring

/-- `jsSum` is the list sum. -/
theorem jsSum_eq_sum (l : List ℚ) : jsSum l = l.sum := by
  rw [jsSum, reduceIdxGo_sum, zero_add]

/-- The index-weighted `reduce` as a `Finset.range` sum, from any
accumulator and start index. -/
theorem reduceIdxGo_xy (l : List ℚ) : ∀ (acc : ℚ) (i : ℕ),
    reduceIdxGo (fun s v k => s + v * (k : ℚ)) acc l i =
      acc + ∑ k ∈ Finset.range l.length, l.getD k 0 * (((k + i : ℕ) : ℚ)) := by
  induction l with
  | nil => intro acc i; simp [reduceIdxGo]
  | cons v vs ih =>
    intro acc i
    simp only [reduceIdxGo, ih, List.length_cons]
    rw [Finset.sum_range_succ']
    simp only [List.getD_cons_succ, List.getD_cons_zero, Nat.zero_add]
    have hsum : (∑ k ∈ Finset.range vs.length, vs.getD k 0 * (((k + (i + 1) : ℕ)) : ℚ))
        = ∑ k ∈ Finset.range vs.length, vs.getD k 0 * (((k + 1 + i : ℕ)) : ℚ) := by
      refine Finset.sum_congr rfl (fun k _ => ?_)
      congr 2
      omega
    rw [hsum]
    ring

/-- `jsSumXY` is the index-weighted sum `Σ values[k] * k`. -/
theorem jsSumXY_eq (l : List ℚ) :
    jsSumXY l = ∑ k ∈ Finset.range l.length, l.getD k 0 * (k : ℚ) := by
  rw [jsSumXY, reduceIdxGo_xy, zero_add]
  exact Finset.sum_congr rfl (fun k _ => by norm_num)

/-- The list sum as a `Finset.range` sum over positions. -/
theorem sum_eq_sum_getD (l : List ℚ) :
    l.sum = ∑ k ∈ Finset.range l.length, l.getD k 0 := by
  induction l with
  | nil => simp
  | cons v vs ih =>
    rw [List.sum_cons, List.length_cons, Finset.sum_range_succ']
    simp only [List.getD_cons_succ, List.getD_cons_zero]
    rw [← ih]
    ring

/-- Gauss: `Σ_{i<n} i = n (n - 1) / 2` over `ℚ`. -/
theorem sum_range_id_q (n : ℕ) :
    (∑ i ∈ Finset.range n, (i : ℚ)) = (n : ℚ) * ((n : ℚ) - 1) / 2 := by
  induction n with
  | zero => simp
  | succ m ih =>
    rw [Finset.sum_range_succ, ih]
    push_cast
    ring

/-- `Σ_{i<n} i² = n (n - 1) (2n - 1) / 6` over `ℚ`. -/
theorem sum_range_sq_q (n : ℕ) :
    (∑ i ∈ Finset.range n, (i : ℚ) * (i : ℚ)) =
      (n : ℚ) * ((n : ℚ) - 1) * (2 * (n : ℚ) - 1) / 6 := by
  induction n with
  | zero => simp
  | succ m ih =>
    rw [Finset.sum_range_succ, ih]
    push_cast
    ring

/-- The source's closed form `sumX` is the genuine index sum. -/
theorem sumX_eq (n : ℕ) : sumX n = ∑ i ∈ Finset.range n, (i : ℚ) := by
  rw [sumX, sum_range_id_q]

/-- The source's closed form `sumX2` is the genuine index-square sum. -/
theorem sumX2_eq (n : ℕ) : sumX2 n = ∑ i ∈ Finset.range n, (i : ℚ) * (i : ℚ) := by
  rw [sumX2, sum_range_sq_q]

/-- `Math.min(...l)` is an element of a nonempty `l`. -/
theorem mathMin_mem (l : List ℚ) (h : l ≠ []) : mathMin l ∈ l := by
  rcases l with _ | ⟨v, vs⟩
  · exact absurd rfl h
  · rcases foldl_min_mem (v :: vs) ((v :: vs).headD 0) with he | he
    · rw [mathMin, he]; exact List.mem_cons.mpr (Or.inl rfl)
    · rw [mathMin]; exact he

/-- `Math.min(...l)` is a lower bound of `l`. -/
theorem mathMin_le (l : List ℚ) (v : ℚ) (hv : v ∈ l) : mathMin l ≤ v :=
  foldl_min_le_mem l (l.headD 0) v hv

/-- `Math.max(...l)` is an element of a nonempty `l`. -/
theorem mathMax_mem (l : List ℚ) (h : l ≠ []) : mathMax l ∈ l := by
  rcases l with _ | ⟨v, vs⟩
  · exact absurd rfl h
  · rcases foldl_max_mem (v :: vs) ((v :: vs).headD 0) with he | he
    · rw [mathMax, he]; exact List.mem_cons.mpr (Or.inl rfl)
    · rw [mathMax]; exact he

/-- `Math.max(...l)` is an upper bound of `l`. -/
theorem mathMax_ge (l : List ℚ) (v : ℚ) (hv : v ∈ l) : v ≤ mathMax l :=
  foldl_max_ge_mem l (l.headD 0) v hv

/-- C8: `calculateStats` returns all zeroes on the empty series; on a
nonempty series, `min`/`max`/`avg` are the minimum, maximum and arithmetic
mean of the `value_inc_vat` values and `count` is the length; for at least
two points, `trend` is the ordinary-least-squares slope of the values
regressed against the position index; and for fewer than two points,
`trend` is 0. -/
theorem calculateStats_spec :
    (calculateStats [] = { min := 0, max := 0, avg := 0, trend := 0, count := 0 })
    ∧ (∀ prices : List EnergyRate, prices ≠ [] →
        ((calculateStats prices).min ∈ prices.map (fun p => p.value_inc_vat)
          ∧ ∀ v ∈ prices.map (fun p => p.value_inc_vat), (calculateStats prices).min ≤ v)
        ∧ ((calculateStats prices).max ∈ prices.map (fun p => p.value_inc_vat)
          ∧ ∀ v ∈ prices.map (fun p => p.value_inc_vat), v ≤ (calculateStats prices).max)
        ∧ (calculateStats prices).avg =
            (prices.map (fun p => p.value_inc_vat)).sum / (prices.length : ℚ)
        ∧ (calculateStats prices).count = prices.length)
    ∧ (∀ prices : List EnergyRate, 2 ≤ prices.length →
        (calculateStats prices).trend = olsSlope (prices.map (fun p => p.value_inc_vat)))
    ∧ (∀ prices : List EnergyRate, prices.length < 2 →
        (calculateStats prices).trend = 0) := by
  have hfields : ∀ prices : List EnergyRate, prices ≠ [] →
      calculateStats prices =
        { min := mathMin (prices.map (fun p => p.value_inc_vat))
          max := mathMax (prices.map (fun p => p.value_inc_vat))
          avg := jsSum (prices.map (fun p => p.value_inc_vat)) / (prices.length : ℚ)
          trend :=
            if 2 ≤ prices.length then
              ((prices.length : ℚ) * jsSumXY (prices.map (fun p => p.value_inc_vat))
                - sumX prices.length * jsSum (prices.map (fun p => p.value_inc_vat)))
                / trendDenom prices.length
            else 0
          count := prices.length } := by
    intro prices h
    rcases prices with _ | ⟨p, ps⟩
    · exact absurd rfl h
    · simp only [calculateStats, List.isEmpty_cons, Bool.false_eq_true, if_false,
        List.length_map]
  refine ⟨rfl, fun prices h => ?_, fun prices h2 => ?_, fun prices h2 => ?_⟩
  · have hmapne : prices.map (fun p => p.value_inc_vat) ≠ [] := by
      intro hc
      exact h (List.map_eq_nil_iff.mp hc)
    rw [hfields prices h]
    exact ⟨⟨mathMin_mem _ hmapne, fun v hv => mathMin_le _ v hv⟩,
      ⟨mathMax_mem _ hmapne, fun v hv => mathMax_ge _ v hv⟩,
      by rw [jsSum_eq_sum], rfl⟩
  · have h : prices ≠ [] := by
      intro hc
      rw [hc] at h2
      exact absurd h2 (by norm_num)
    rw [hfields prices h]
    simp only [if_pos h2]
    rw [olsSlope]
    simp only [List.length_map]
    rw [jsSumXY_eq, jsSum_eq_sum, sum_eq_sum_getD, trendDenom, sumX_eq, sumX2_eq,
      List.length_map]
    have hcomm :
        (∑ k ∈ Finset.range prices.length,
            (prices.map (fun p => p.value_inc_vat)).getD k 0 * (k : ℚ))
        = ∑ k ∈ Finset.range prices.length,
            (k : ℚ) * (prices.map (fun p => p.value_inc_vat)).getD k 0 :=
      Finset.sum_congr rfl (fun k _ => mul_comm _ _)
    rw [hcomm]
  · rcases prices with _ | ⟨p, ps⟩
    · rfl
    · rw [hfields (p :: ps) (by simp)]
      simp only [if_neg (by omega : ¬ 2 ≤ (p :: ps).length)]

/-- C8 witness: the theorem applied to the two-point series with values
10 and 20 (mean 15, slope 10) and to a one-point series (trend 0). -/
theorem calculateStats_spec_witness :
    (calculateStats [⟨9, 10, "a", "b"⟩, ⟨19, 20, "c", "d"⟩]).avg
      = (([⟨9, 10, "a", "b"⟩, ⟨19, 20, "c", "d"⟩] : List EnergyRate).map
          (fun p => p.value_inc_vat)).sum
        / ((([⟨9, 10, "a", "b"⟩, ⟨19, 20, "c", "d"⟩] : List EnergyRate).length : ℚ))
    ∧ (calculateStats [⟨9, 10, "a", "b"⟩, ⟨19, 20, "c", "d"⟩]).trend
      = olsSlope (([⟨9, 10, "a", "b"⟩, ⟨19, 20, "c", "d"⟩] : List EnergyRate).map
          (fun p => p.value_inc_vat))
    ∧ (calculateStats [⟨9, 10, "a", "b"⟩]).trend = 0 :=
  ⟨(calculateStats_spec.2.1 _ (by decide)).2.2.1,
   calculateStats_spec.2.2.1 _ (by decide),
   calculateStats_spec.2.2.2 _ (by decide)⟩

/-- C10: for every series with at least two points, the trend denominator
`n * sumX2 - sumX²` computed by `calculateStats` equals `n² (n² - 1) / 12`
and is strictly positive, so the trend division never divides by zero; for
fewer than two points the guarded branch yields `trend = 0` without
reaching the division. -/
theorem trendDenom_spec :
    (∀ n : ℕ, 2 ≤ n →
      trendDenom n = (n : ℚ) ^ 2 * ((n : ℚ) ^ 2 - 1) / 12 ∧ 0 < trendDenom n)
    ∧ (∀ prices : List EnergyRate, prices.length < 2 →
        (calculateStats prices).trend = 0) := by
  have hval : ∀ n : ℕ, trendDenom n = (n : ℚ) ^ 2 * ((n : ℚ) ^ 2 - 1) / 12 := by
    intro n
    rw [trendDenom, sumX, sumX2]
    field_simp
    ring
  refine ⟨fun n hn => ⟨hval n, ?_⟩, fun prices h => ?_⟩
  · rw [hval n]
    have h2 : (2 : ℚ) ≤ (n : ℚ) := by exact_mod_cast hn
    apply div_pos
    · apply mul_pos
      · nlinarith
      · nlinarith
    · norm_num
  · rcases prices with _ | ⟨p, ps⟩
    · rfl
    · have hn : ¬ 2 ≤ (p :: ps).length := by
        simp only [List.length_cons] at h ⊢
        omega
      simp only [calculateStats, List.isEmpty_cons, Bool.false_eq_true, if_false, if_neg hn]

/-- C10 witness: the theorem at `n = 2` and at a one-point series. -/
theorem trendDenom_spec_witness :
    (trendDenom 2 = (2 : ℚ) ^ 2 * ((2 : ℚ) ^ 2 - 1) / 12 ∧ 0 < trendDenom 2)
    ∧ (calculateStats [⟨9, 10, "a", "b"⟩]).trend = 0 :=
  ⟨⟨(trendDenom_spec.1 2 (by norm_num)).1 |>.trans (by norm_num),
    (trendDenom_spec.1 2 (by norm_num)).2⟩,
   trendDenom_spec.2 [⟨9, 10, "a", "b"⟩] (by decide)⟩

/-! ## C7 and C9: `getCurrentAndNextPrices` and analytics purity -/

/-- The scan of `getCurrentAndNextPrices` returns the first element
satisfying the predicate together with the element that follows it. -/
theorem currentNextLoop_eq (pred : EnergyRate → Bool) :
    ∀ l : List EnergyRate,
      currentNextLoop pred l =
        (l.find? pred, ((l.dropWhile (fun p => ! pred p)).tail).head?) := by
  intro l
  induction l with
  | nil => rfl
  | cons p rest ih =>
    by_cases hp : pred p = true
    · simp [currentNextLoop, hp]
    · simp only [Bool.not_eq_true] at hp
      simp [currentNextLoop, hp, ih]

/-- C7 (amended): `getCurrentAndNextPrices` returns as `current` the first
point, in ascending `valid_from` order, whose `[valid_from, valid_to)`
interval contains `now`, and as `next` the point immediately following
`current` in that sorted order; when no point's interval contains `now`,
*both* `current` and `next` are null (`next` is not computed independently
as the first point after `now`). -/
theorem getCurrentAndNextPrices_spec :
    ∀ (dateParse : String → Option ℚ) (now : ℚ) (prices : List EnergyRate),
      List.Perm (sortByValidFrom dateParse prices) prices
      ∧ List.Sorted (leVF dateParse) (sortByValidFrom dateParse prices)
      ∧ (getCurrentAndNextPrices dateParse now prices).1
          = (sortByValidFrom dateParse prices).find? (containsNow dateParse now)
      ∧ (getCurrentAndNextPrices dateParse now prices).2
          = (((sortByValidFrom dateParse prices).dropWhile
              (fun p => ! containsNow dateParse now p)).tail).head?
      ∧ ((getCurrentAndNextPrices dateParse now prices).1 = none →
          (getCurrentAndNextPrices dateParse now prices).2 = none) := by
  intro dp now prices
  have hloop := currentNextLoop_eq (containsNow dp now) (sortByValidFrom dp prices)
  refine ⟨List.perm_insertionSort _ _, List.sorted_insertionSort _ _, ?_, ?_, ?_⟩
  · rw [getCurrentAndNextPrices, hloop]
  · rw [getCurrentAndNextPrices, hloop]
  · intro hnone
    rw [getCurrentAndNextPrices, hloop] at hnone ⊢
    simp only at hnone ⊢
    have hdrop : (sortByValidFrom dp prices).dropWhile
        (fun p => ! containsNow dp now p) = [] := by
      rw [List.dropWhile_eq_nil_iff]
      intro x hx
      have := List.find?_eq_none.mp hnone x hx
      simpa using this
    rw [hdrop]
    rfl

/-- C7 counterexample: with the single point `[100, 200)` and `now = 50`,
no interval contains `now` and the point's `valid_from` lies after `now`,
yet the code returns `next = null` — not that point, as the claim's
independent-scan clause requires. -/
theorem getCurrentAndNextPrices_counterexample :
    containsNow probeParse 50 ⟨0, 10, "100", "200"⟩ = false
    ∧ 50 < jsTime probeParse (⟨0, 10, "100", "200"⟩ : EnergyRate).valid_from
    ∧ (getCurrentAndNextPrices probeParse 50 [⟨0, 10, "100", "200"⟩]).2 = none := by
  decide

/-- C9 (amended): `calculateStats`, `groupPricesByDay` and
`getCheapestPrice24h` leave the argument array unchanged; but
`filterPricesByDateRange` and `getCurrentAndNextPrices` sort the argument
array in place (`Array.prototype.sort`), leaving a permutation of the
original elements in ascending `valid_from` order rather than the original
order; no other state is touched. -/
theorem analytics_mutation_spec :
    ∀ (dateParse : String → Option ℚ) (prices : List EnergyRate),
      calculateStats_post prices = prices
      ∧ groupPricesByDay_post prices = prices
      ∧ getCheapestPrice24h_post prices = prices
      ∧ List.Perm (filterPricesByDateRange_post dateParse prices) prices
      ∧ List.Sorted (leVF dateParse) (filterPricesByDateRange_post dateParse prices)
      ∧ List.Perm (getCurrentAndNextPrices_post dateParse prices) prices
      ∧ List.Sorted (leVF dateParse) (getCurrentAndNextPrices_post dateParse prices) := by
  intro dp prices
  exact ⟨rfl, rfl, rfl, List.perm_insertionSort _ _, List.sorted_insertionSort _ _,
    List.perm_insertionSort _ _, List.sorted_insertionSort _ _⟩

/-- C9 counterexample: on a two-point series given in descending
`valid_from` order, the array left behind by `filterPricesByDateRange` is
not the input — the in-place sort changed the element order. -/
theorem filterPrices_mutation_counterexample :
    filterPricesByDateRange_post probeParse
        [⟨0, 1, "200", "200"⟩, ⟨0, 2, "100", "100"⟩]
      ≠ [⟨0, 1, "200", "200"⟩, ⟨0, 2, "100", "100"⟩] := by
  decide

/-! ## C3: non-retryable errors propagate immediately -/

/-- C3: whenever an iteration of the retry loop runs the work unit (at any
attempt index, with the budget check letting the attempt through) and its
settled outcome is an error classified as non-retryable — a timeout error,
a rate-limit error, or an error carrying HTTP status 401/403/404 — the
error is rethrown at once: the remaining trace is that single work
invocation, with no backoff wait and no further invocation; in particular
`execute` so behaves when its first attempt fails non-retryably. -/
theorem execute_nonretryable_spec {α : Type} :
    ∀ (opts : RateLimitOptions) (work : ℕ → Except JsError α) (jitter : ℕ → ℤ),
      (∀ (fuel attempt : ℕ) (s : LimiterState) (e : JsError),
        (canMakeRequest opts s).2.1 = true →
        work attempt = .error e →
        nonRetryable e = true →
        (executeGo opts work jitter (fuel + 1) attempt s).result = .error e
        ∧ ∃ t d c, (executeGo opts work jitter (fuel + 1) attempt s).trace
            = [LimiterEvent.invoke attempt t d c])
      ∧ (∀ (s : LimiterState) (e : JsError),
        (canMakeRequest opts s).2.1 = true →
        work 0 = .error e →
        nonRetryable e = true →
        (execute opts work jitter s).result = .error e
        ∧ ∃ t d c, (execute opts work jitter s).trace
            = [LimiterEvent.invoke 0 t d c]) := by
  intro opts work jitter
  have hgo : ∀ (fuel attempt : ℕ) (s : LimiterState) (e : JsError),
      (canMakeRequest opts s).2.1 = true →
      work attempt = .error e →
      nonRetryable e = true →
      (executeGo opts work jitter (fuel + 1) attempt s).result = .error e
      ∧ ∃ t d c, (executeGo opts work jitter (fuel + 1) attempt s).trace
          = [LimiterEvent.invoke attempt t d c] := by
    intro fuel attempt s e hallow hwork hnr
    constructor
    · simp [executeGo, hallow, hwork, hnr]
    · refine ⟨(canMakeRequest opts s).1.now,
        (canMakeRequest opts s).1.now - (canMakeRequest opts s).1.lastRequest,
        (((canMakeRequest opts s).1.requests.filter
          (fun t => (canMakeRequest opts s).1.now - t < opts.windowMs)).length), ?_⟩
      simp [executeGo, hallow, hwork, hnr]
  exact ⟨hgo, fun s e hallow hwork hnr =>
    hgo opts.maxRetries 0 s e hallow hwork hnr⟩

/-- C3 witness: a timeout outcome on the first attempt, concrete limiter. -/
theorem execute_nonretryable_spec_witness :
    (execute scratchOpts (fun _ => (Except.error (JsError.timeout "t") : Except JsError ℕ))
        (fun _ => 0) scratchState).result = Except.error (JsError.timeout "t")
    ∧ ∃ t d c, (execute scratchOpts
        (fun _ => (Except.error (JsError.timeout "t") : Except JsError ℕ))
        (fun _ => 0) scratchState).trace = [LimiterEvent.invoke 0 t d c] :=
  (execute_nonretryable_spec scratchOpts _ (fun _ => 0)).2 scratchState
    (JsError.timeout "t") (by decide) rfl rfl

/-! ## C2: a work unit failing with a generic error exhausts all retries -/

/-- The retry loop under an always-generically-failing work unit: provided
the window budget dominates the attempt count and the minimum interval is
at most the base backoff, every iteration runs the work unit once, backs
off, and the final rejection carries the last thrown error.  Stated over
`executeGo` with the fuel/attempt bookkeeping as an invariant. -/
theorem executeGo_allFail {α : Type} (opts : RateLimitOptions)
    (work : ℕ → Except JsError α) (msgs : ℕ → String) (jitter : ℕ → ℤ)
    (hw : ∀ a, work a = .error (.generic (msgs a)))
    (hj : ∀ a, 0 ≤ jitter a)
    (hmr : opts.maxRetries < opts.maxRequests)
    (hmin : opts.minInterval ≤ 1000) :
    ∀ (fuel attempt : ℕ) (s : LimiterState),
      attempt + fuel = opts.maxRetries + 1 →
      attempt ≤ opts.maxRetries →
      s.requests.length ≤ attempt →
      opts.minInterval ≤ s.now - s.lastRequest →
      (executeGo opts work jitter fuel attempt s).result
          = .error (.generic (msgs opts.maxRetries))
      ∧ ((executeGo opts work jitter fuel attempt s).trace.countP isInvoke) = fuel
      ∧ ((executeGo opts work jitter fuel attempt s).trace.countP
          (fun ev => isBudgetWait ev)) = 0 := by
  intro fuel
  induction fuel with
  | zero =>
    intro attempt s hsum hle hlen hgap
    omega
  | succ f ih =>
    intro attempt s hsum hle hlen hgap
    have hlen1 : (cleanOldRequests opts s).requests.length ≤ s.requests.length :=
      List.length_filter_le _ _
    have hc1 : ¬ (opts.maxRequests ≤ (cleanOldRequests opts s).requests.length) := by
      omega
    have hc2 : ¬ ((cleanOldRequests opts s).now - (cleanOldRequests opts s).lastRequest
        < opts.minInterval) := by
      have hnow : (cleanOldRequests opts s).now = s.now := rfl
      have hlast : (cleanOldRequests opts s).lastRequest = s.lastRequest := rfl
      rw [hnow, hlast]
      exact not_lt.mpr hgap
    have hcan : canMakeRequest opts s = (cleanOldRequests opts s, true, none) := by
      simp only [canMakeRequest, if_neg hc1, if_neg hc2]
    by_cases hatt : attempt = opts.maxRetries
    · subst hatt
      have hfz : f = 0 := by omega
      subst hfz
      refine ⟨?_, ?_, ?_⟩ <;>
        simp [executeGo, hcan, hw, nonRetryable, isInvoke, isBudgetWait]
    · have hd : opts.minInterval ≤ backoffDelay attempt + jitter attempt := by
        have hpow : (1 : ℤ) ≤ 2 ^ attempt := by
          have := Nat.one_le_two_pow (n := attempt)
          exact_mod_cast this
        have hb : (1000 : ℤ) ≤ backoffDelay attempt := by
          rw [backoffDelay]
          refine le_min ?_ (by norm_num)
          nlinarith
        have := hj attempt
        omega
      set s4 := advanceClock (recordRequest (cleanOldRequests opts s))
        (backoffDelay attempt + jitter attempt) with hs4
      have hlen4 : s4.requests.length ≤ attempt + 1 := by
        have : s4.requests = (cleanOldRequests opts s).requests
            ++ [(cleanOldRequests opts s).now] := rfl
        rw [this, List.length_append]
        simp only [List.length_cons, List.length_nil]
        omega
      have hgap4 : opts.minInterval ≤ s4.now - s4.lastRequest := by
        have hn : s4.now = (cleanOldRequests opts s).now
            + (backoffDelay attempt + jitter attempt) := rfl
        have hl : s4.lastRequest = (cleanOldRequests opts s).now := rfl
        rw [hn, hl]
        omega
      obtain ⟨ih1, ih2, ih3⟩ := ih (attempt + 1) s4 (by omega) (by omega) hlen4 hgap4
      refine ⟨?_, ?_, ?_⟩
      · simp [executeGo, hcan, hw, nonRetryable, hatt, ← hs4, ih1]
      · simp [executeGo, hcan, hw, nonRetryable, hatt, ← hs4, ih2, isInvoke,
          List.countP_append, List.countP_cons]
      · simp [executeGo, hcan, hw, nonRetryable, hatt, ← hs4,
          List.countP_append, List.countP_cons]
        refine ⟨⟨?_, rfl⟩, rfl⟩
        intro a ha
        have hfa := List.countP_eq_zero.mp ih3 a ha
        simpa using hfa

/-- C2: when the rate-limit budget allows every attempt (an empty window
history, a window budget exceeding the retry count, the minimum interval
not above the base backoff, and the minimum interval already elapsed at the
start) and the work unit rejects with a generic error on every invocation,
`execute` invokes the work unit exactly `maxRetries + 1` times — never
waiting on the budget — and finally rejects with the last generic error
thrown. -/
theorem execute_genericRetries_spec {α : Type} :
    ∀ (opts : RateLimitOptions) (work : ℕ → Except JsError α) (msgs : ℕ → String)
      (jitter : ℕ → ℤ) (s : LimiterState),
      (∀ a, work a = .error (.generic (msgs a))) →
      (∀ a, 0 ≤ jitter a) →
      opts.maxRetries < opts.maxRequests →
      opts.minInterval ≤ 1000 →
      s.requests = [] →
      opts.minInterval ≤ s.now - s.lastRequest →
      (execute opts work jitter s).result = .error (.generic (msgs opts.maxRetries))
      ∧ ((execute opts work jitter s).trace.countP isInvoke) = opts.maxRetries + 1
      ∧ ((execute opts work jitter s).trace.countP
          (fun ev => isBudgetWait ev)) = 0 := by
  intro opts work msgs jitter s hw hj hmr hmin hreq hgap
  have hlen : s.requests.length ≤ 0 := by rw [hreq]; exact le_refl 0
  exact executeGo_allFail opts work msgs jitter hw hj hmr hmin
    (opts.maxRetries + 1) 0 s (by omega) (by omega) hlen hgap

/-- C2 witness: the concrete limiter run already evaluated above — four
invocations, final rejection with the generic error. -/
theorem execute_genericRetries_spec_witness :
    (execute scratchOpts scratchWork (fun _ => 0) scratchState).result
      = .error (.generic "boom")
    ∧ ((execute scratchOpts scratchWork (fun _ => 0) scratchState).trace.countP
        isInvoke) = scratchOpts.maxRetries + 1
    ∧ ((execute scratchOpts scratchWork (fun _ => 0) scratchState).trace.countP
        (fun ev => isBudgetWait ev)) = 0 :=
  execute_genericRetries_spec scratchOpts scratchWork (fun _ => "boom") (fun _ => 0)
    scratchState (fun _ => rfl) (fun _ => le_refl 0) (by decide) (by decide) rfl (by decide)

/-! ## C4: the budget wait does not return to a re-check -/

/-- `canMakeRequest` always hands back the pruned state as its first
component. -/
theorem canMakeRequest_fst (opts : RateLimitOptions) (s : LimiterState) :
    (canMakeRequest opts s).1 = cleanOldRequests opts s := by
  simp only [canMakeRequest]
  split
  · rfl
  · split
    · rfl
    · rfl

/-- C4 (amended): when the budget check fails with a computed (nonzero)
`retryAfter` of at most 60 seconds, the call suspends for exactly that
duration and then proceeds straight on — recording a request timestamp and
invoking the work unit at `now + retryAfter·1000` — *without* returning to
the budget check, so the elapsed-since-last-request observed at the
invocation is exactly `now + retryAfter·1000 - lastRequest` (and the
in-window count is re-pruned only implicitly, by the ghost observation),
whether or not the two limits hold at that moment. -/
theorem execute_budgetWait_spec {α : Type} :
    ∀ (opts : RateLimitOptions) (work : ℕ → Except JsError α) (jitter : ℕ → ℤ)
      (s : LimiterState) (r : ℤ),
      (canMakeRequest opts s).2.1 = false →
      (canMakeRequest opts s).2.2 = some r →
      r ≠ 0 → r ≤ 60 →
      (execute opts work jitter s).trace.head?
        = some (LimiterEvent.budgetWait (r * 1000))
      ∧ (execute opts work jitter s).trace.tail.head?
        = some (LimiterEvent.invoke 0 (s.now + r * 1000)
            (s.now + r * 1000 - s.lastRequest)
            (((s.requests.filter (fun t => s.now - t < opts.windowMs)).filter
              (fun t => s.now + r * 1000 - t < opts.windowMs)).length)) := by
  intro opts work jitter s r hno hsome hnz hle
  have hfst := canMakeRequest_fst opts s
  have hcond : r ≠ 0 ∧ r ≤ 60 := ⟨hnz, hle⟩
  constructor <;>
  · rcases hwork : work 0 with e | v
    · by_cases hnr : nonRetryable e = true
      · simp [execute, executeGo, hno, hsome, if_pos hcond, hwork, hnr, hfst,
          cleanOldRequests, advanceClock, recordRequest]
      · by_cases hmax : (0 : ℕ) = opts.maxRetries
        · simp [execute, executeGo, hno, hsome, if_pos hcond, hwork, hnr, ← hmax, hfst,
            cleanOldRequests, advanceClock, recordRequest]
        · simp [execute, executeGo, hno, hsome, if_pos hcond, hwork, hnr,
            if_neg hmax, hfst, cleanOldRequests, advanceClock, recordRequest]
    · simp [execute, executeGo, hno, hsome, if_pos hcond, hwork, hfst,
        cleanOldRequests, advanceClock, recordRequest]

/-- C4 counterexample: with a full 2-request window (timestamps 0 and
9000 ms), clock 9500 ms and a 5000 ms minimum interval, the budget check
fails with `retryAfter = 1` s; after the 1 s wait the work unit is invoked
at 10500 ms, only 1500 ms after the last recorded request — the wait did
not return to the budget check, and the minimum-interval limit does not
hold at the invocation, contradicting the claim. -/
theorem execute_budgetWait_counterexample :
    (canMakeRequest waitOverrunOpts waitOverrunState).2.1 = false
    ∧ (canMakeRequest waitOverrunOpts waitOverrunState).2.2 = some 1
    ∧ (execute waitOverrunOpts (fun _ => (Except.ok 0 : Except JsError ℕ)) (fun _ => 0)
        waitOverrunState).trace
      = [LimiterEvent.budgetWait 1000, LimiterEvent.invoke 0 10500 1500 1]
    ∧ (1500 : ℤ) < waitOverrunOpts.minInterval := by
  decide

/-- C4 witness: the amended theorem applied to the concrete full-window
state. -/
theorem execute_budgetWait_spec_witness :
    (execute waitOverrunOpts (fun _ => (Except.ok 0 : Except JsError ℕ)) (fun _ => 0)
        waitOverrunState).trace.head?
      = some (LimiterEvent.budgetWait (1 * 1000))
    ∧ (execute waitOverrunOpts (fun _ => (Except.ok 0 : Except JsError ℕ)) (fun _ => 0)
        waitOverrunState).trace.tail.head?
      = some (LimiterEvent.invoke 0 (waitOverrunState.now + 1 * 1000)
          (waitOverrunState.now + 1 * 1000 - waitOverrunState.lastRequest)
          (((waitOverrunState.requests.filter
              (fun t => waitOverrunState.now - t < waitOverrunOpts.windowMs)).filter
            (fun t => waitOverrunState.now + 1 * 1000 - t
              < waitOverrunOpts.windowMs)).length)) :=
  execute_budgetWait_spec waitOverrunOpts _ (fun _ => 0) waitOverrunState 1
    (by decide) (by decide) (by decide) (by decide)

/-! ## C1 and C5: the service envelope and pagination -/

/-- `getEnergyPricesImpl` settles in exactly one of the two envelope
shapes: data with no error, or an error with no data. -/
theorem getEnergyPricesImpl_cases (days : ℤ) (periodFrom periodTo : String)
    (dateParse : String → Option ℚ) (oracle : PageOracle) :
    (∃ rs, getEnergyPricesImpl days periodFrom periodTo dateParse oracle
        = { data := some rs, error := none, isLoading := false })
    ∨ (∃ msg, getEnergyPricesImpl days periodFrom periodTo dateParse oracle
        = { data := none, error := some msg, isLoading := false }) := by
  cases hb : buildApiUrl periodFrom periodTo with
  | error e =>
    right
    exact ⟨errorMessageOf e, by simp [getEnergyPricesImpl, hb]⟩
  | ok url =>
    cases hp : pagLoop dateParse oracle 10 (some url) [] 0 with
    | error e =>
      right
      exact ⟨errorMessageOf e, by simp [getEnergyPricesImpl, hb, hp]⟩
    | ok rs =>
      left
      exact ⟨rs, by simp [getEnergyPricesImpl, hb, hp]⟩

/-- C1: for every `days` argument and every behaviour of the upstream fetch
(success pages, any thrown HTTP-status error, invalid payload shape,
rate-limit errors, timeout errors — all behaviours of the page oracle),
`getEnergyPrices(days)` and `getCurrentPrice()` return an envelope (they
are total — nothing escapes as an exception) with `isLoading = false` and
exactly one of `data`/`error` non-null. -/
theorem energyService_envelope_spec :
    (∀ (days : ℤ) (periodFrom periodTo : String) (dateParse : String → Option ℚ)
        (oracle : PageOracle),
      (getEnergyPricesImpl days periodFrom periodTo dateParse oracle).isLoading = false
      ∧ ((getEnergyPricesImpl days periodFrom periodTo dateParse oracle).data ≠ none
          ∧ (getEnergyPricesImpl days periodFrom periodTo dateParse oracle).error = none
        ∨ (getEnergyPricesImpl days periodFrom periodTo dateParse oracle).data = none
          ∧ (getEnergyPricesImpl days periodFrom periodTo dateParse oracle).error ≠ none))
    ∧ (∀ (dateParse : String → Option ℚ) (now : ℚ) (periodFrom periodTo : String)
        (oracle : PageOracle),
      (getCurrentPrice dateParse now periodFrom periodTo oracle).isLoading = false
      ∧ ((getCurrentPrice dateParse now periodFrom periodTo oracle).data ≠ none
          ∧ (getCurrentPrice dateParse now periodFrom periodTo oracle).error = none
        ∨ (getCurrentPrice dateParse now periodFrom periodTo oracle).data = none
          ∧ (getCurrentPrice dateParse now periodFrom periodTo oracle).error ≠ none)) := by
  constructor
  · intro days periodFrom periodTo dateParse oracle
    rcases getEnergyPricesImpl_cases days periodFrom periodTo dateParse oracle with
      ⟨rs, h⟩ | ⟨msg, h⟩ <;> rw [h] <;> simp
  · intro dateParse now periodFrom periodTo oracle
    rcases getEnergyPricesImpl_cases 1 periodFrom periodTo dateParse oracle with
      ⟨rs, h⟩ | ⟨msg, h⟩
    · rw [getCurrentPrice, h]
      cases hf : rs.find? (containsNow dateParse now) <;> simp [hf, strTruthy]
    · rw [getCurrentPrice, h]
      simp [strTruthy]

/-- C5: when the first page fetch succeeds, passes shape validation, and
carries a non-null `next` URL that fails `validateUrl` (e.g. a foreign
host), pagination stops silently: the service returns exactly that page's
results with `error = null`. -/
theorem pagination_invalidNext_spec :
    ∀ (days : ℤ) (periodFrom periodTo : String) (dateParse : String → Option ℚ)
      (oracle : PageOracle) (url : String) (page : Json) (u : String),
      buildApiUrl periodFrom periodTo = .ok url →
      oracle 0 = .ok page →
      validateApiResponse dateParse page = true →
      extractNext page = some u →
      validateUrl u = false →
      getEnergyPricesImpl days periodFrom periodTo dateParse oracle
        = { data := some (extractResults page), error := none, isLoading := false } := by
  intro days periodFrom periodTo dateParse oracle url page u hb ho hv hn hu
  have hb0 := hb
  have hurl : validateUrl url = true := by
    simp only [buildApiUrl] at hb
    split at hb
    · next hcond => cases hb; exact hcond
    · next => cases hb
  have hloop : pagLoop dateParse oracle 10 (some url) [] 0 = .ok (extractResults page) := by
    rw [show (10 : ℕ) = 9 + 1 from rfl, pagLoop]
    simp [hurl, ho, hv, hn, hu, ValidationRules]
  simp [getEnergyPricesImpl, hb0, hloop]

/-- C5 witness: the theorem at a concrete page whose `next` points at
`evil.example.com`; the envelope carries the page's single result and no
error. -/
theorem pagination_invalidNext_spec_witness :
    getEnergyPricesImpl 3 probePeriodFrom probePeriodTo probeParseAll probeOracle
      = { data := some (extractResults probePage), error := none, isLoading := false } :=
  pagination_invalidNext_spec 3 probePeriodFrom probePeriodTo probeParseAll probeOracle
    ("https://api.octopus.energy/v1/products/AGILE-24-10-01/electricity-tariffs/E-1R-AGILE-24-10-01-G/standard-unit-rates/?period_from=2025-01-01T00:00:00Z&period_to=2025-01-02T23:59:59Z")
    probePage "https://evil.example.com/x"
    (by set_option maxRecDepth 8000 in decide) rfl (by decide) (by decide) (by decide)
